import Mathlib

/-!
Verification development for the `stheader` Go package, a parser and
serializer for Structured Field Values (Structured Headers for HTTP,
draft-ietf-httpbis-header-structure-14).

The embedding below is a shallow translation of the repository sources
`types.go`, `parser.go` and `serializer.go`:

* Go `[]byte` input is modelled as `List Char` (all grammar-relevant
  characters are ASCII, one byte per char).
* The parser's mutable cursor (`Parser.input`, `Parser.pos`) is the
  state record `PState`; each parsing routine maps a state to
  `Except ParseError (result × PState)`.
* Parser loops (`parseDictionary`, `parseList`, `parseInnerList`,
  `parseParameters`) are written with an explicit fuel argument; the
  entry operations supply fuel `input.length + 1`, which is sufficient
  because every loop iteration consumes at least one input byte.
* Go `int64` is modelled as `Int` (the only overflow-relevant site,
  `strconv.ParseInt`, is guarded by the 15/16-digit check, which keeps
  every parsed integer well inside the 64-bit range).
* Go `float64` is modelled as `ℚ`; see the comments on `ratOfDecimal`
  and `formatRat` for the exact modelling boundary around
  `strconv.ParseFloat` / `strconv.FormatFloat`.
* A Go `(value, error)` return is `Except ParseError value` in the
  parser and `Option String` in the serializer (`none` = error); the
  serializer's append-to-byte-slice style is modelled by returning the
  appended fragment, which the caller concatenates.
-/

set_option autoImplicit false

deriving instance DecidableEq for Except

namespace Stheader

/-! ## Data model (`types.go`) -/

/-- `BareItem` models the Go `BareItem` interface together with its
concrete payload (`bareItem.val`): one of String, Byte Sequence,
Boolean, Integer, Float, Token.  The `float64` payload is modelled as
`ℚ`: every finite IEEE-754 binary64 value is an exact rational, and
all float values appearing in theorems below are exactly representable
in binary64, so no rounding is lost by this modelling. -/
inductive BareItem : Type where
  | str (s : String)
  | byteSeq (b : List Nat)
  | bool (b : Bool)
  | int (i : Int)
  | float (q : ℚ)
  | token (t : String)
  deriving DecidableEq

/-- `Parameters` (`parameters.items` in `types.go`): an insertion-ordered
list of key / optional-value pairs.  A `none` value models a parameter
stored with a nil `BareItem` (key present, value absent). -/
abbrev Parameters : Type := List (String × Option BareItem)

/-- `Item` models the Go `item` struct: a bare item plus parameters. -/
structure Item : Type where
  bareItem : BareItem
  params : Parameters
  deriving DecidableEq

/-- `InnerList` models the Go `innerList` struct. -/
structure InnerList : Type where
  items : List Item
  params : Parameters
  deriving DecidableEq

/-- `Member` models the Go `Member` interface (an Item or an InnerList). -/
inductive Member : Type where
  | item (i : Item)
  | innerList (l : InnerList)
  deriving DecidableEq

/-- `Dictionary` (`dictionary.items` in `types.go`): insertion-ordered
key/member pairs. -/
abbrev Dictionary : Type := List (String × Member)

/-- Go `List` is `[]Member`; named `SList` because `List` is taken in Lean. -/
abbrev SList : Type := List Member

/-! ## Parser state and byte-level helpers (`parser.go`) -/

/-- `ParseError` models the Go `ParseError` struct (message and byte offset). -/
structure ParseError : Type where
  msg : String
  pos : Nat
  deriving DecidableEq

/-- `PState` models the mutable `Parser` struct: fixed input and cursor. -/
structure PState : Type where
  input : List Char
  pos : Nat
  deriving DecidableEq

/-- The unread input `p.input[p.pos:]`. -/
def rest (st : PState) : List Char := st.input.drop st.pos

/-- `Parser.eol`: `p.pos >= len(p.input)`. -/
def eol (st : PState) : Bool := decide (st.input.length ≤ st.pos)

/-- `Parser.advance`. -/
def advance (st : PState) : PState := { st with pos := st.pos + 1 }

/-- `Parser.peekByte`. -/
def peekByte (st : PState) : Except ParseError Char :=
  match rest st with
  | [] => .error ⟨"Unexpected end of string in peekByte", st.pos⟩
  | c :: _ => .ok c

/-- `Parser.getByte`. -/
def getByte (st : PState) : Except ParseError (Char × PState) := do
  let b ← peekByte st
  .ok (b, advance st)

/-- `Parser.matchByte`. -/
def matchByte (m : Char) (st : PState) : Except ParseError PState := do
  let (b, st') ← getByte st
  if b = m then .ok st'
  else
    .error ⟨"Expected " ++ String.singleton m ++ " on position " ++ toString (st'.pos - 1),
      st'.pos - 1⟩

/-- Number of leading space/tab characters (the loop body of `skipOWS`). -/
def owsCount : List Char → Nat
  | c :: cs => if c = ' ' ∨ c = '\t' then owsCount cs + 1 else 0
  | [] => 0

/-- `Parser.skipOWS`: advance over spaces and tabs. -/
def skipOWS (st : PState) : PState := { st with pos := st.pos + owsCount (rest st) }

/-- `Parser.end` (renamed: `end` is a Lean keyword): skip optional
whitespace and require the cursor to be at the end of the input. -/
def atEnd (st : PState) : Except ParseError Unit :=
  let st' := skipOWS st
  if eol st' then .ok ()
  else .error ⟨"Expected end of the string, but found more data instead", st'.pos⟩

/-- `NewParser`: store the input and skip leading optional whitespace. -/
def newParser (s : String) : PState := skipOWS ⟨s.data, 0⟩

/-! ## Character classes and regex scanners

The Go code scans keys, tokens, numbers and byte sequences with
anchored regular expressions; each is transcribed as a greedy
character-class scanner (the patterns contain no constructs needing
backtracking: in `byteSeqRegex` the final literal `*` is outside the
starred class). -/

def isLowerAlpha (c : Char) : Bool := decide ('a' ≤ c ∧ c ≤ 'z')

def isUpperAlpha (c : Char) : Bool := decide ('A' ≤ c ∧ c ≤ 'Z')

def isAlphaCh (c : Char) : Bool := isLowerAlpha c || isUpperAlpha c

def isDigitCh (c : Char) : Bool := decide ('0' ≤ c ∧ c ≤ '9')

/-- Continuation class of `keyRegex`: `[a-z0-9_\-\*]`. -/
def isKeyTail (c : Char) : Bool :=
  isLowerAlpha c || isDigitCh c || c == '_' || c == '-' || c == '*'

/-- Continuation class of `tokenRegex`: `[a-zA-Z0-9_\-\.\:\%\*\/]`. -/
def isTokenTail (c : Char) : Bool :=
  isAlphaCh c || isDigitCh c || c == '_' || c == '-' || c == '.' || c == ':' ||
    c == '%' || c == '*' || c == '/'

/-- Character class of `byteSeqRegex`: `[A-Za-z0-9\\+\\/=]` (inside a Go
backquoted string `\\` is a literal backslash, so the class contains
the backslash character itself besides the base64 alphabet and `=`). -/
def isB64Char (c : Char) : Bool :=
  isAlphaCh c || isDigitCh c || c == '\\' || c == '+' || c == '/' || c == '='

/-- Take at most `n` leading characters satisfying `p` (models a
`{0,n}` bounded greedy repetition). -/
def takeUpTo (p : Char → Bool) : Nat → List Char → List Char
  | 0, _ => []
  | _, [] => []
  | n + 1, c :: cs => if p c then c :: takeUpTo p n cs else []

/-- Greedy match of `keyRegex` = `^[a-z][a-z0-9_\-\*]{0,254}` at the
head of `l`; `[]` means no match. -/
def keyMatch : List Char → List Char
  | [] => []
  | c :: cs => if isLowerAlpha c then c :: takeUpTo isKeyTail 254 cs else []

/-- Greedy match of `tokenRegex` = `^[a-zA-Z][a-zA-Z0-9_\-\.\:\%\*\/]*`. -/
def tokenMatch : List Char → List Char
  | [] => []
  | c :: cs => if isAlphaCh c then c :: cs.takeWhile isTokenTail else []

/-- Greedy match of `numberPartRegex` = `^[0-9-]([0-9])*(\.[0-9]{1,6})?`.
The optional fraction group participates only when the dot is followed
by at least one digit (regex alternative backtracking). -/
def numberMatch : List Char → List Char
  | [] => []
  | c :: cs =>
    if isDigitCh c || c == '-' then
      let ds := cs.takeWhile isDigitCh
      let afterInt := cs.drop ds.length
      let frac : List Char :=
        match afterInt with
        | '.' :: fs =>
          let f6 := takeUpTo isDigitCh 6 fs
          if f6 = [] then [] else '.' :: f6
        | _ => []
      c :: (ds ++ frac)
    else []

/-! ## Numeric conversions (`strconv`) -/

/-- Decimal digits to `Nat`. -/
def digitsToNat (l : List Char) : Nat :=
  l.foldl (fun a c => 10 * a + (c.toNat - 48)) 0

/-- Model of `strconv.ParseInt(m, 10, 64)` on the texts produced by
`numberMatch` without a dot (an optional minus followed by digits):
fails exactly when no digits are present (the text `"-"`).  The
64-bit range check never fires because callers bound the digit count
to 15 first. -/
def parseIntGo : List Char → Option Int
  | '-' :: ds => if ds = [] then none else some (-(digitsToNat ds : Int))
  | ds => if ds = [] then none else some (digitsToNat ds)

/-- Model of `strconv.ParseFloat(m, 64)` on the texts produced by
`numberMatch` with a dot: the exact rational value of the decimal
literal `ip.fp`, namely `(ip * 10^len(fp) + fp) / 10^len(fp)`.  Go
additionally rounds this rational to the nearest binary64 value; every
float used in a theorem below is exactly representable in binary64, so
the rounding step is the identity there. -/
def ratOfDecimalAbs (l : List Char) : ℚ :=
  let ip := l.takeWhile isDigitCh
  let after := l.drop ip.length
  let fp : List Char :=
    match after with
    | '.' :: fs => fs.takeWhile isDigitCh
    | _ => []
  mkRat (digitsToNat ip * 10 ^ fp.length + digitsToNat fp) (10 ^ fp.length)

/-- See `ratOfDecimalAbs`. -/
def ratOfDecimal : List Char → ℚ
  | '-' :: l => Rat.neg (ratOfDecimalAbs l)
  | l => ratOfDecimalAbs l

/-- Decimal digit characters of a positive `Nat`, most significant
first; the first argument is fuel (`n` itself is always enough, since
a number has no more digits than its own value). -/
def natToDigitsAux : Nat → Nat → List Char
  | 0, _ => []
  | fuel + 1, n =>
    if n = 0 then [] else natToDigitsAux fuel (n / 10) ++ [Char.ofNat (48 + n % 10)]

/-- Decimal digit characters of a `Nat`. -/
def natToDigits (n : Nat) : List Char :=
  if n = 0 then ['0'] else natToDigitsAux n n

/-- Model of `strconv.AppendInt(b, v, 10)`: plain decimal rendering. -/
def intToString (v : Int) : String :=
  if v < 0 then "-" ++ String.mk (natToDigits v.natAbs) else String.mk (natToDigits v.natAbs)

/-! ## Base64 (`encoding/base64`, standard alphabet) -/

/-- Value of a standard-base64 alphabet character. -/
def b64CharVal (c : Char) : Option Nat :=
  if isUpperAlpha c then some (c.toNat - 65)
  else if isLowerAlpha c then some (c.toNat - 71)
  else if isDigitCh c then some (c.toNat + 4)
  else if c == '+' then some 62
  else if c == '/' then some 63
  else none

/-- First output byte of a quantum. -/
def b64Byte1 (v1 v2 : Nat) : Nat := v1 * 4 + v2 / 16

/-- Second output byte of a quantum. -/
def b64Byte2 (v2 v3 : Nat) : Nat := v2 % 16 * 16 + v3 / 4

/-- Third output byte of a quantum. -/
def b64Byte3 (v3 v4 : Nat) : Nat := v3 % 4 * 64 + v4

/-- Model of `base64.StdEncoding.Decode` (padded, non-strict): input
length must be a multiple of four; `=` padding is allowed only at the
end of the final quantum; unused trailing bits are ignored. -/
def decodeBase64Std : List Char → Option (List Nat)
  | [] => some []
  | a :: b :: c :: d :: restl => do
    let v1 ← b64CharVal a
    let v2 ← b64CharVal b
    if c = '=' then
      if d = '=' ∧ restl = [] then some [b64Byte1 v1 v2] else none
    else do
      let v3 ← b64CharVal c
      if d = '=' then
        if restl = [] then some [b64Byte1 v1 v2, b64Byte2 v2 v3] else none
      else do
        let v4 ← b64CharVal d
        let tl ← decodeBase64Std restl
        some ([b64Byte1 v1 v2, b64Byte2 v2 v3, b64Byte3 v3 v4] ++ tl)
  | _ => none

/-- Model of `base64.RawStdEncoding.Decode` (unpadded): `=` is not in
the alphabet; a trailing group of one character is an error, of two or
three characters yields one or two bytes. -/
def decodeBase64Raw : List Char → Option (List Nat)
  | [] => some []
  | [_] => none
  | [a, b] => do
    let v1 ← b64CharVal a
    let v2 ← b64CharVal b
    some [b64Byte1 v1 v2]
  | [a, b, c] => do
    let v1 ← b64CharVal a
    let v2 ← b64CharVal b
    let v3 ← b64CharVal c
    some [b64Byte1 v1 v2, b64Byte2 v2 v3]
  | a :: b :: c :: d :: restl => do
    let v1 ← b64CharVal a
    let v2 ← b64CharVal b
    let v3 ← b64CharVal c
    let v4 ← b64CharVal d
    let tl ← decodeBase64Raw restl
    some ([b64Byte1 v1 v2, b64Byte2 v2 v3, b64Byte3 v3 v4] ++ tl)

/-- Standard-base64 alphabet character for a 6-bit value. -/
def b64EncChar (n : Nat) : Char :=
  if n < 26 then Char.ofNat (65 + n)
  else if n < 52 then Char.ofNat (97 + n - 26)
  else if n < 62 then Char.ofNat (48 + n - 52)
  else if n = 62 then '+'
  else '/'

/-- Model of `base64.StdEncoding.EncodeToString`: padded standard base64. -/
def encodeBase64Std : List Nat → List Char
  | [] => []
  | [x] => [b64EncChar (x / 4), b64EncChar (x % 4 * 16), '=', '=']
  | [x, y] => [b64EncChar (x / 4), b64EncChar (x % 4 * 16 + y / 16),
      b64EncChar (y % 16 * 4), '=']
  | x :: y :: z :: restl =>
    [b64EncChar (x / 4), b64EncChar (x % 4 * 16 + y / 16),
      b64EncChar (y % 16 * 4 + z / 64), b64EncChar (z % 64)] ++ encodeBase64Std restl

/-! ## Leaf parsers (`parser.go`) -/

/-- `Parser.parseKey`: greedy `keyRegex` match; no match is an error,
otherwise the cursor advances over the match. -/
def parseKey (st : PState) : Except ParseError (String × PState) :=
  let m := keyMatch (rest st)
  if m = [] then
    .error ⟨"Expected key identifier on position " ++ toString st.pos, st.pos⟩
  else .ok (String.mk m, { st with pos := st.pos + m.length })

/-- `Parser.parseToken`. -/
def parseToken (st : PState) : Except ParseError (String × PState) :=
  let m := tokenMatch (rest st)
  if m = [] then
    .error ⟨"Expected token identifier on position " ++ toString st.pos, st.pos⟩
  else .ok (String.mk m, { st with pos := st.pos + m.length })

/-- Loop body of `Parser.parseString` (the cursor is already past the
opening quote).  Arguments: the unread input and the cursor position;
returns the unescaped contents and the position after the closing
quote. -/
def parseStringLoop : List Char → Nat → Except ParseError (List Char × Nat)
  | [], pos => .error ⟨"Unexpected end of string in peekByte", pos⟩
  | ['\\'], pos => .error ⟨"Unexpected end of string in peekByte", pos + 1⟩
  | '\\' :: b2 :: l, pos =>
    if b2 = '"' ∨ b2 = '\\' then do
      let (out, pos') ← parseStringLoop l (pos + 2)
      .ok (b2 :: out, pos')
    else
      .error ⟨"Expected a \" or \\ on position: " ++ toString (pos + 1), pos + 1⟩
  | '"' :: _, pos => .ok ([], pos + 1)
  | b :: l, pos =>
    if b < ' ' ∨ '~' < b then .error ⟨"Character outside of ASCII range", pos⟩
    else do
      let (out, pos') ← parseStringLoop l (pos + 1)
      .ok (b :: out, pos')

/-- `Parser.parseString`: skip the opening quote, then run the loop. -/
def parseString (st : PState) : Except ParseError (String × PState) := do
  let (out, pos') ← parseStringLoop (rest (advance st)) (st.pos + 1)
  .ok (String.mk out, { st with pos := pos' })

/-- `Parser.parseBoolean`: `?` then exactly `0` or `1`. -/
def parseBoolean (st : PState) : Except ParseError (Bool × PState) := do
  let st ← matchByte '?' st
  let (b, st') ← getByte st
  if b = '0' then .ok (false, st')
  else if b = '1' then .ok (true, st')
  else .error ⟨"A \"?\" must be followed by \"0\" or \"1\"", st'.pos - 1⟩

/-- `Parser.parseByteSeq`: `*`, then the `byteSeqRegex` match (a greedy
run of the class followed by a literal `*`), then padded standard
base64 decoding with a fallback to unpadded standard base64. -/
def parseByteSeq (st : PState) : Except ParseError (List Nat × PState) := do
  let st ← matchByte '*' st
  let cls := (rest st).takeWhile isB64Char
  match (rest st).drop cls.length with
  | '*' :: _ =>
    let st' := { st with pos := st.pos + cls.length + 1 }
    match decodeBase64Std cls with
    | some dst => .ok (dst, st')
    | none =>
      match decodeBase64Raw cls with
      | some dst => .ok (dst, st')
      | none =>
        .error ⟨"Invalid base64 strings at position " ++ toString st'.pos ++ "?", st'.pos⟩
  | _ => .error ⟨"Couldn't parse byte sequence at position " ++ toString st.pos, st.pos⟩

/-- `Parser.parseNumber`: greedy `numberPartRegex` match; a dot selects
the float path (`strconv.ParseFloat`, modelled by `ratOfDecimal`, which
never fails on a matched text); otherwise the digit-count check runs
before `strconv.ParseInt`. -/
def parseNumber (st : PState) : Except ParseError (BareItem × PState) :=
  let m := numberMatch (rest st)
  if m = [] then .error ⟨"Expected number on position " ++ toString st.pos, st.pos⟩
  else if m.contains '.' then
    .ok (.float (ratOfDecimal m), { st with pos := st.pos + m.length })
  else if 16 < m.length ∨ (m.head? ≠ some '-' ∧ 15 < m.length) then
    .error ⟨"Integers must not have more than 15 digits", st.pos + m.length⟩
  else
    match parseIntGo m with
    | some v => .ok (.int v, { st with pos := st.pos + m.length })
    | none =>
      .error ⟨"Expected integer number on position " ++ toString (st.pos + m.length),
        st.pos + m.length⟩

/-- `Parser.parseBareItem`: dispatch on the lookahead character. -/
def parseBareItem (st : PState) : Except ParseError (BareItem × PState) := do
  let b ← peekByte st
  if b = '"' then do
    let (v, st') ← parseString st
    .ok (.str v, st')
  else if b = '*' then do
    let (v, st') ← parseByteSeq st
    .ok (.byteSeq v, st')
  else if b = '?' then do
    let (v, st') ← parseBoolean st
    .ok (.bool v, st')
  else if isDigitCh b || b == '-' then parseNumber st
  else if isAlphaCh b then do
    let (v, st') ← parseToken st
    .ok (.token v, st')
  else
    .error ⟨"Unexpected character: " ++ String.singleton b ++ " on position " ++
      toString st.pos, st.pos⟩

/-! ## Parser loops

Each Go `for` loop becomes a fuel-indexed recursive function carrying
the Go accumulator.  The entry operations pass fuel `input.length + 1`;
every iteration of every loop consumes at least one byte or returns,
so the `"out of fuel"` branch is unreachable from the entry points. -/

/-- Loop of `Parser.parseParameters`, accumulating `params.items`.
`Store` always appends here because a duplicate key was just ruled
out. -/
def parseParametersLoop : Nat → Parameters → PState → Except ParseError (Parameters × PState)
  | 0, _, st => .error ⟨"out of fuel", st.pos⟩
  | fuel + 1, acc, st =>
    if eol st then .ok (acc, st)
    else do
      let b ← peekByte st
      if b ≠ ';' then .ok (acc, st)
      else do
        let st := skipOWS (advance st)
        let (paramKey, st) ← parseKey st
        if (acc.lookup paramKey).isSome then
          .error ⟨"Duplicate parameter key: " ++ paramKey, st.pos⟩
        else do
          let (paramValue, st) ←
            if eol st then (.ok (none, st) : Except ParseError (Option BareItem × PState))
            else do
              let b ← peekByte st
              if b = '=' then do
                let (v, st') ← parseBareItem (advance st)
                .ok (some v, st')
              else .ok (none, st)
          parseParametersLoop fuel (acc ++ [(paramKey, paramValue)]) st

/-- `Parser.parseParameters`. -/
def parseParameters (fuel : Nat) (st : PState) : Except ParseError (Parameters × PState) :=
  parseParametersLoop fuel [] st

/-- `Parser.parseItem`: a bare item followed by its parameters. -/
def parseItem (fuel : Nat) (st : PState) : Except ParseError (Item × PState) := do
  let (bi, st) ← parseBareItem st
  let (params, st) ← parseParameters fuel st
  .ok (⟨bi, params⟩, st)

/-- Loop of `Parser.parseInnerList` (after the opening parenthesis):
skip whitespace, stop at `)`, otherwise parse an item and require the
next byte to be a space or `)` without consuming it.  If the input
ends before `)` the loop simply stops, exactly as the Go `for !p.eol()`
does. -/
def parseInnerListLoop : Nat → List Item → PState → Except ParseError (List Item × PState)
  | 0, _, st => .error ⟨"out of fuel", st.pos⟩
  | fuel + 1, items, st =>
    if eol st then .ok (items, st)
    else
      let st := skipOWS st
      do
        let b ← peekByte st
        if b = ')' then .ok (items, advance st)
        else do
          let (it, st) ← parseItem fuel st
          let b2 ← peekByte st
          if b2 ≠ ' ' ∧ b2 ≠ ')' then
            .error ⟨"Malformed list. Expected whitespace or )", st.pos⟩
          else parseInnerListLoop fuel (items ++ [it]) st

/-- `Parser.parseInnerList`. -/
def parseInnerList (fuel : Nat) (st : PState) : Except ParseError (InnerList × PState) := do
  let st ← matchByte '(' st
  let (items, st) ← parseInnerListLoop fuel [] st
  let (params, st) ← parseParameters fuel st
  .ok (⟨items, params⟩, st)

/-- `Parser.parseMember`: `(` begins an inner list, anything else an item. -/
def parseMember (fuel : Nat) (st : PState) : Except ParseError (Member × PState) := do
  let b ← peekByte st
  if b = '(' then do
    let (v, st') ← parseInnerList fuel st
    .ok (.innerList v, st')
  else do
    let (v, st') ← parseItem fuel st
    .ok (.item v, st')

/-- Loop of `Parser.parseList`. -/
def parseListLoop : Nat → List Member → PState → Except ParseError (List Member × PState)
  | 0, _, st => .error ⟨"out of fuel", st.pos⟩
  | fuel + 1, acc, st =>
    if eol st then .ok (acc, st)
    else do
      let (m, st) ← parseMember fuel st
      let acc := acc ++ [m]
      let st := skipOWS st
      if eol st then .ok (acc, st)
      else do
        let st ← matchByte ',' st
        let st := skipOWS st
        if eol st then
          .error ⟨"Unexpected end of string. Was there a trailing comma?", st.pos⟩
        else parseListLoop fuel acc st

/-- Models the call `key, err := p.parseKey()` in `parseDictionary`,
whose `err` is overwritten by the following `p.matchByte('=')` before
ever being inspected: a failed key match yields the empty key and
leaves the cursor in place, and parsing continues. -/
def parseKeyLenient (st : PState) : String × PState :=
  match parseKey st with
  | .ok (k, st') => (k, st')
  | .error _ => ("", st)

/-- Loop of `Parser.parseDictionary`, accumulating `dictionary.items`
(`Store` always appends because a duplicate key was just ruled out). -/
def parseDictionaryLoop : Nat → Dictionary → PState → Except ParseError (Dictionary × PState)
  | 0, _, st => .error ⟨"out of fuel", st.pos⟩
  | fuel + 1, acc, st =>
    if eol st then .ok (acc, st)
    else
      let (key, st) := parseKeyLenient st
      if (acc.lookup key).isSome then
        .error ⟨"Duplicate key in dictionary: " ++ key, st.pos⟩
      else do
        let st ← matchByte '=' st
        let (value, st) ← parseMember fuel st
        let acc := acc ++ [(key, value)]
        let st := skipOWS st
        if eol st then .ok (acc, st)
        else do
          let st ← matchByte ',' st
          let st := skipOWS st
          if eol st then .error ⟨"Unexpected end of string", st.pos⟩
          else parseDictionaryLoop fuel acc st

/-! ## Entry operations -/

/-- `Parser.ParseDictionary` composed with `NewParser`: parse a whole
input string as a Dictionary, requiring the input to be consumed. -/
def ParseDictionary (s : String) : Except ParseError Dictionary := do
  let st := newParser s
  let (d, st) ← parseDictionaryLoop (s.data.length + 1) [] st
  atEnd st
  .ok d

/-- `Parser.ParseList` composed with `NewParser`. -/
def ParseList (s : String) : Except ParseError SList := do
  let st := newParser s
  let (l, st) ← parseListLoop (s.data.length + 1) [] st
  atEnd st
  .ok l

/-- `Parser.ParseItem` composed with `NewParser`. -/
def ParseItem (s : String) : Except ParseError Item := do
  let st := newParser s
  let (i, st) ← parseItem (s.data.length + 1) st
  atEnd st
  .ok i

/-! ## Serializer (`serializer.go`)

Each `append*` routine is modelled as the string fragment it appends
(`none` = the Go error return); callers concatenate fragments in the
same order as the Go code appends to its byte slice. -/

/-- `Serializer.appendKey`: the key must be matched in full by
`keyRegex`. -/
def appendKey (key : String) : Option String :=
  match keyMatch key.data with
  | [] => none
  | m => if m = key.data then some key else none

/-- `Serializer.appendBareItemInt`: range check, then decimal digits. -/
def appendBareItemInt (v : Int) : Option String :=
  if v < -999999999999999 ∨ 999999999999999 < v then none
  else some (intToString v)

/-- Split a character list at every `'.'` (model of
`strings.Split(s, ".")`; the result always has at least one part). -/
def splitOnDot : List Char → List (List Char)
  | [] => [[]]
  | c :: cs =>
    if c = '.' then [] :: splitOnDot cs
    else
      match splitOnDot cs with
      | p :: ps => (c :: p) :: ps
      | [] => [[c]]

/-- Everything `Serializer.appendBareItemFloat` does after the call
`formatted := strconv.FormatFloat(v, 'f', -1, 64)`: split `formatted`
at the dot, reject an oversized integer part (more than 15 characters,
or more than 14 when `v > 0`), then append the integer part, a dot,
and the fractional part right-truncated to `15 - len(parts[0])`
characters (a single `0` when there is no fractional part).  The Go
test `v > 0` is passed in as `vpos`. -/
def appendBareItemFloatCore (formatted : List Char) (vpos : Bool) : Option (List Char) :=
  let parts := splitOnDot formatted
  let p0 := parts.headD []
  if 15 < p0.length ∨ (vpos = true ∧ 14 < p0.length) then none
  else
    let fracPart : List Char :=
      match parts with
      | _ :: f :: _ => f.take (min f.length (15 - p0.length))
      | _ => ['0']
    some (p0 ++ '.' :: fracPart)

/-- Fuel-indexed search for the least `k` with `q * 10^k` integral
(equivalently, with the reduced denominator of `q` dividing `10^k`). -/
def findDenExpAux (q : ℚ) : Nat → Nat → Option Nat
  | 0, _ => none
  | fuel + 1, k =>
    if 10 ^ k % q.den = 0 then some k else findDenExpAux q fuel (k + 1)

/-- Least `k ≤ 1100` with `q * 10^k` integral (1100 exceeds the 767
fractional digits any binary64 value can need). -/
def findDenExp (q : ℚ) : Option Nat := findDenExpAux q 1100 0

/-- Model of `strconv.FormatFloat(v, 'f', -1, 64)`: the minimal
fixed-point decimal rendering, computed as the digits of
`|num| * 10^k / den` with a decimal point before the last `k` digits,
where `k` is minimal such that this is exact.  For a binary64 value
`v`, Go produces the shortest decimal that parses back to `v`; for
every value used in a theorem below that shortest decimal is the exact
decimal expansion of the value, which is what this function computes
on the corresponding rational.  (The `none` fallback of `findDenExp`
is unreachable for rationals that are binary64 values.) -/
def formatRat (q : ℚ) : List Char :=
  match findDenExp q with
  | none => ['0']
  | some k =>
    let ds := natToDigits (q.num.natAbs * 10 ^ k / q.den)
    let ds := if ds.length < k + 1 then List.replicate (k + 1 - ds.length) '0' ++ ds else ds
    let ip := ds.take (ds.length - k)
    let fp := ds.drop (ds.length - k)
    (if q.num < 0 then ['-'] else []) ++ ip ++ (if k = 0 then [] else '.' :: fp)

/-- `Serializer.appendBareItemFloat` = format, then
`appendBareItemFloatCore` with the sign test `v > 0` (for a rational,
`0 < q` is `0 < q.num`). -/
def appendBareItemFloat (q : ℚ) : Option String :=
  (appendBareItemFloatCore (formatRat q) (decide (0 < q.num))).map String.mk

/-- Loop body of `Serializer.appendBareItemString`: escape `\` and `"`,
reject characters outside printable ASCII. -/
def stringBody : List Char → Option (List Char)
  | [] => some []
  | c :: cs =>
    if c < ' ' ∨ '~' < c then none
    else do
      let tl ← stringBody cs
      some ((if c = '\\' ∨ c = '"' then ['\\', c] else [c]) ++ tl)

/-- `Serializer.appendBareItemString`. -/
def appendBareItemString (val : String) : Option String := do
  let body ← stringBody val.data
  some ("\"" ++ String.mk body ++ "\"")

/-- `Serializer.appendBareItemToken`: the token must be matched in full
by `tokenRegex`. -/
def appendBareItemToken (t : String) : Option String :=
  match tokenMatch t.data with
  | [] => none
  | m => if m = t.data then some t else none

/-- `Serializer.appendBareItemByteSeq`: `*`, padded standard base64,
`*` (never fails). -/
def appendBareItemByteSeq (data : List Nat) : Option String :=
  some ("*" ++ String.mk (encodeBase64Std data) ++ "*")

/-- `Serializer.appendBareItemBool`. -/
def appendBareItemBool (v : Bool) : Option String :=
  some (if v then "?1" else "?0")

/-- `Serializer.appendBareItem`: dispatch on the item type (the Go
`panic` on an invalid type is unreachable: `BareItem` is closed). -/
def appendBareItem : BareItem → Option String
  | .str s => appendBareItemString s
  | .byteSeq b => appendBareItemByteSeq b
  | .bool b => appendBareItemBool b
  | .int i => appendBareItemInt i
  | .float q => appendBareItemFloat q
  | .token t => appendBareItemToken t

/-- One `;key` or `;key=value` fragment of
`Serializer.appendParameters` (a nil value appends no `=value`). -/
def appendParamEntry : String × Option BareItem → Option String
  | (name, val) => do
    let k ← appendKey name
    match val with
    | none => some (";" ++ k)
    | some bi => do
      let v ← appendBareItem bi
      some (";" ++ k ++ "=" ++ v)

/-- `Serializer.appendParameters`: empty parameters append nothing;
otherwise the `;`-prefixed entries in order, stopping at the first
error. -/
def appendParameters : Parameters → Option String
  | [] => some ""
  | e :: restl => do
    let s ← appendParamEntry e
    let t ← appendParameters restl
    some (s ++ t)

/-- `Serializer.appendItem`: bare item then parameters. -/
def appendItem (it : Item) : Option String := do
  let b ← appendBareItem it.bareItem
  let p ← appendParameters it.params
  some (b ++ p)

/-- Space-joined items of `Serializer.appendInnerList`. -/
def appendItemsSpace : List Item → Option String
  | [] => some ""
  | [i] => appendItem i
  | i :: restl => do
    let s ← appendItem i
    let t ← appendItemsSpace restl
    some (s ++ " " ++ t)

/-- `Serializer.appendInnerList`. -/
def appendInnerList (l : InnerList) : Option String := do
  let body ← appendItemsSpace l.items
  let p ← appendParameters l.params
  some ("(" ++ body ++ ")" ++ p)

/-- `Serializer.appendMember`. -/
def appendMember : Member → Option String
  | .item i => appendItem i
  | .innerList l => appendInnerList l

/-- `Serializer.appendList`: members joined by `", "`. -/
def appendList : List Member → Option String
  | [] => some ""
  | [m] => appendMember m
  | m :: restl => do
    let s ← appendMember m
    let t ← appendList restl
    some (s ++ ", " ++ t)

/-- One `key=member` fragment of `Serializer.appendDictionary`. -/
def appendDictEntry (e : String × Member) : Option String := do
  let k ← appendKey e.1
  let m ← appendMember e.2
  some (k ++ "=" ++ m)

/-- `Serializer.appendDictionary`: empty dictionary appends nothing;
entries joined by `", "`. -/
def appendDictionary : Dictionary → Option String
  | [] => some ""
  | [e] => appendDictEntry e
  | e :: restl => do
    let s ← appendDictEntry e
    let t ← appendDictionary restl
    some (s ++ ", " ++ t)

/-- `Serializer.SerializeItem`. -/
def SerializeItem (it : Item) : Option String := appendItem it

/-- `Serializer.SerializeList`. -/
def SerializeList (l : SList) : Option String := appendList l

/-- `Serializer.SerializeDictionary`. -/
def SerializeDictionary (d : Dictionary) : Option String := appendDictionary d

/-- Whether some `'.'` in the list is immediately followed by a digit
(used to state the "every serialized decimal contains `.` followed by
at least one digit" property). -/
def hasDotThenDigit : List Char → Bool
  | '.' :: c :: restl => isDigitCh c || hasDotThenDigit (c :: restl)
  | _ :: restl => hasDotThenDigit restl
  | [] => false

/-- The characters a rendering contributes after its integer part:
nothing, or a dot and the fraction digits (used to state properties of
`appendBareItemFloatCore` over decomposed renderings). -/
def fracSuffix : Option (List Char) → List Char
  | none => []
  | some f => '.' :: f

/-- The fraction the serializer emits after the dot for an integer
part of length `p0len`: a single `0` when the rendering has no
fraction, otherwise the fraction right-truncated to `15 - p0len`
digits. -/
def fracOut (p0len : Nat) : Option (List Char) → List Char
  | none => ['0']
  | some f => f.take (min f.length (15 - p0len))

/-! ## Helper lemmas -/

/-- Computation rule for `Except` bind on a success. -/
@[simp] theorem except_bind_ok {ε α β : Type} (a : α) (f : α → Except ε β) :
    (Except.ok a : Except ε α) >>= f = f a := rfl

/-- Computation rule for `Except` bind on an error. -/
@[simp] theorem except_bind_error {ε α β : Type} (e : ε) (f : α → Except ε β) :
    (Except.error e : Except ε α) >>= f = .error e := rfl

/-- A run of spaces and tabs is consumed entirely by `skipOWS`. -/
theorem owsCount_eq_length (l : List Char) (h : ∀ c ∈ l, c = ' ' ∨ c = '\t') :
    owsCount l = l.length := by
  induction l with
  | nil => rfl
  | cons c cs ih =>
    have hc : c = ' ' ∨ c = '\t' := h c (List.mem_cons_self c cs)
    rw [owsCount, if_pos hc, ih (fun x hx => h x (List.mem_cons_of_mem c hx))]
    rfl

/-- On an all-whitespace input, `NewParser` leaves the cursor at the end. -/
theorem newParser_pos_of_ws (s : String) (h : ∀ c ∈ s.data, c = ' ' ∨ c = '\t') :
    newParser s = ⟨s.data, s.data.length⟩ := by
  simp [newParser, skipOWS, rest, owsCount_eq_length s.data h]

/-- At the end of the input, `Parser.end` succeeds. -/
theorem atEnd_at_length (l : List Char) : atEnd ⟨l, l.length⟩ = .ok () := by
  simp [atEnd, skipOWS, rest, List.drop_length, owsCount, eol]

/-- `ParseList` maps an all-whitespace input (including the empty
string) to the empty list. -/
theorem parseList_ws (s : String) (h : ∀ c ∈ s.data, c = ' ' ∨ c = '\t') :
    ParseList s = .ok [] := by
  have hnp : newParser s = ⟨s.data, s.length⟩ := newParser_pos_of_ws s h
  have h1 : parseListLoop (s.length + 1) [] ⟨s.data, s.length⟩ =
      .ok ([], ⟨s.data, s.length⟩) := by
    simp [parseListLoop, eol]
  have h2 : atEnd ⟨s.data, s.length⟩ = .ok () := atEnd_at_length s.data
  simp [ParseList, hnp, h1, h2]

/-- `ParseItem` fails on an all-whitespace input: `parseBareItem` peeks
past the end of the input. -/
theorem parseItem_ws (s : String) (h : ∀ c ∈ s.data, c = ' ' ∨ c = '\t') :
    ParseItem s = .error ⟨"Unexpected end of string in peekByte", s.data.length⟩ := by
  have hnp : newParser s = ⟨s.data, s.length⟩ := newParser_pos_of_ws s h
  have hd : s.data.drop s.length = [] := List.drop_length s.data
  have hpeek : peekByte ⟨s.data, s.length⟩ =
      .error ⟨"Unexpected end of string in peekByte", s.length⟩ := by
    simp only [peekByte, rest, hd]
  simp [ParseItem, hnp, parseItem, parseBareItem, hpeek]

/-! ## The claims -/

/-- C1.  The claim states that parse-then-serialize is idempotent: if
an entry operation succeeds on `s` and serializing the result yields
`c`, then parsing `c` succeeds and re-serializing yields `c` again.
The code violates this.  `ParseItem "-99999999999999.5"` succeeds with
the float `-99999999999999.5` (exactly representable in binary64, so
the `ℚ` model is exact), serializing that item succeeds with the
output `"-99999999999999."` — the 15-character integer part exhausts
the serializer's digit budget, so the fractional part is truncated to
zero digits after the dot has already been emitted — and parsing that
output fails, because the number grammar requires at least one digit
after a dot.  This theorem evaluates the code at the failing input. -/
theorem c1_bug_eval :
    ParseItem "-99999999999999.5" = .ok ⟨.float (mkRat (-199999999999999) 2), []⟩ ∧
    SerializeItem ⟨.float (mkRat (-199999999999999) 2), []⟩ = some "-99999999999999." ∧
    ParseItem "-99999999999999." =
      .error ⟨"Expected end of the string, but found more data instead", 15⟩ := by
  refine ⟨by decide, by decide, by decide⟩

/-- C2 counterexample.  The claim states that a bare dictionary key
not followed by `=` is shorthand for `Boolean(true)` and that
`"a, b=?0"` parses successfully.  In the code, `parseDictionary`
unconditionally requires `=` after every key, so parsing `"a, b=?0"`
as a dictionary fails at the comma. -/
theorem c2_counterexample :
    ParseDictionary "a, b=?0" = .error ⟨"Expected = on position 1", 1⟩ := by
  decide

/-- C2 amended.  Every dictionary key must be followed by `=` and an
explicit member; a bare key is a parse error, not Boolean-true
shorthand.  In particular `"a, b=?0"` fails to parse as a dictionary,
while the explicit form `"a=?1, b=?0"` yields the entries
`a ↦ Item(Boolean true)` and `b ↦ Item(Boolean false)`. -/
theorem c2_amended :
    ParseDictionary "a=?1, b=?0" =
      .ok [("a", .item ⟨.bool true, []⟩), ("b", .item ⟨.bool false, []⟩)] ∧
    ParseDictionary "a, b=?0" = .error ⟨"Expected = on position 1", 1⟩ := by
  refine ⟨by decide, by decide⟩

/-- C3.  The claim states that every successful `ParseDictionary`
leaves only keys matching `[a-z][a-z0-9_\-\*]{0,254}` (in particular
no empty key).  The code violates this: in `parseDictionary` the error
of `p.parseKey()` is assigned to `err` but overwritten by
`p.matchByte('=')` before being inspected, so a failed key match
contributes the empty key `""` and parsing continues.  Parsing `"=1"`
therefore succeeds and produces a dictionary whose only key is the
empty string, which the key character class rejects (second
conjunct). -/
theorem c3_bug_eval :
    ParseDictionary "=1" = .ok [("", .item ⟨.int 1, []⟩)] ∧
    keyMatch "".data = [] := by
  refine ⟨by decide, by decide⟩

/-- C5 counterexample.  The claim states that two inner-list items
separated by more than one space make parsing fail.  It does not:
after each item the parser only checks (without consuming) that the
next byte is a space or `)`, and the next loop iteration then skips
any run of spaces and tabs, so `"(a  b)"` parses successfully. -/
theorem c5_counterexample :
    ParseList "(a  b)" =
      .ok [.innerList ⟨[⟨.token "a", []⟩, ⟨.token "b", []⟩], []⟩] := by
  decide

/-- C5 amended.  After each inner-list item the byte immediately
following must be a space or `)` (a tab there is an error), but before
the next item any run of spaces and tabs is skipped, so a single space
is accepted, multiple spaces are also accepted, and a tab immediately
after an item is rejected. -/
theorem c5_amended :
    ParseList "(a b)" =
      .ok [.innerList ⟨[⟨.token "a", []⟩, ⟨.token "b", []⟩], []⟩] ∧
    ParseList "(a  b)" =
      .ok [.innerList ⟨[⟨.token "a", []⟩, ⟨.token "b", []⟩], []⟩] ∧
    ParseList "(a\tb)" = .error ⟨"Malformed list. Expected whitespace or )", 2⟩ := by
  refine ⟨by decide, by decide, by decide⟩

/-- C8.  Byte-sequence padding tolerance: `*aGVsbG8=*` decodes with the
padded standard decoder, `*aGVsbG8*` fails the padded decoder (length
not a multiple of four) and succeeds with the raw decoder, both giving
the bytes of `"hello"`; serializing those bytes emits the padded form
`*aGVsbG8=*`, and in general the serializer wraps the padded standard
encoding in `*...*`. -/
theorem c8_base64 :
    ParseItem "*aGVsbG8=*" = .ok ⟨.byteSeq [104, 101, 108, 108, 111], []⟩ ∧
    ParseItem "*aGVsbG8*" = .ok ⟨.byteSeq [104, 101, 108, 108, 111], []⟩ ∧
    SerializeItem ⟨.byteSeq [104, 101, 108, 108, 111], []⟩ = some "*aGVsbG8=*" ∧
    ∀ data : List Nat,
      appendBareItemByteSeq data = some ("*" ++ String.mk (encodeBase64Std data) ++ "*") := by
  exact ⟨by decide, by decide, by decide, fun _ => rfl⟩

/-- C9.  Parsing an all-whitespace input (including the empty string)
as a List succeeds with zero members, and serializing an empty List or
an empty Dictionary yields the empty string. -/
theorem c9_empty_containers (s : String) (h : ∀ c ∈ s.data, c = ' ' ∨ c = '\t') :
    ParseList s = .ok [] ∧ SerializeList [] = some "" ∧ SerializeDictionary [] = some "" :=
  ⟨parseList_ws s h, rfl, rfl⟩

/-- C9 witness. -/
theorem c9_witness :
    ParseList " \t" = .ok [] ∧ SerializeList [] = some "" ∧
      SerializeDictionary [] = some "" :=
  c9_empty_containers " \t" (by decide)

/-- C10.  `ParseItem` on an all-whitespace input (including the empty
string) returns the parse error "Unexpected end of string in peekByte"
rather than any value, unlike `ParseList`, which returns an empty
list on the same inputs. -/
theorem c10_item_needs_input (s : String) (h : ∀ c ∈ s.data, c = ' ' ∨ c = '\t') :
    ParseItem s = .error ⟨"Unexpected end of string in peekByte", s.data.length⟩ ∧
    ParseList s = .ok [] :=
  ⟨parseItem_ws s h, parseList_ws s h⟩

/-- C10 witness. -/
theorem c10_witness :
    ParseItem "  " = .error ⟨"Unexpected end of string in peekByte", 2⟩ ∧
    ParseList "  " = .ok [] :=
  c10_item_needs_input "  " (by decide)

/-! ## Helper lemmas for C4 (parameter serialization) -/

/-- Serializing the same parameter list with one entry's value changed
from nil to `Boolean(true)` lengthens the output by exactly the three
characters `=?1` (`";k"` versus `";k=?1"`). -/
theorem appendParameters_len_split (l₁ : Parameters) (k : String) :
    ∀ (l₂ : Parameters) (s₁ s₂ : String),
      appendParameters (l₁ ++ (k, none) :: l₂) = some s₁ →
      appendParameters (l₁ ++ (k, some (.bool true)) :: l₂) = some s₂ →
      s₂.length = s₁.length + 3 := by
  induction l₁ with
  | nil =>
    intro l₂ s₁ s₂ h₁ h₂
    simp only [List.nil_append, appendParameters, appendParamEntry] at h₁ h₂
    cases hk : appendKey k with
    | none => rw [hk] at h₁; simp at h₁
    | some kk =>
      rw [hk] at h₁ h₂
      cases ht : appendParameters l₂ with
      | none => rw [ht] at h₁; simp at h₁
      | some t =>
        rw [ht] at h₁ h₂
        simp only [Option.bind_eq_bind, Option.some_bind, appendBareItem,
          appendBareItemBool, Option.some.injEq] at h₁ h₂
        rw [← h₁, ← h₂]
        have e1 : ("=" : String).length = 1 := rfl
        have e2 : ("?1" : String).length = 2 := rfl
        have e3 : (";" : String).length = 1 := rfl
        simp [String.length_append, e1, e2, e3]
        omega
  | cons e l₁ ih =>
    intro l₂ s₁ s₂ h₁ h₂
    have hr₁ : (e :: l₁) ++ (k, none) :: l₂ = e :: (l₁ ++ (k, none) :: l₂) := rfl
    have hr₂ : (e :: l₁) ++ (k, some (BareItem.bool true)) :: l₂ =
        e :: (l₁ ++ (k, some (BareItem.bool true)) :: l₂) := rfl
    rw [hr₁, appendParameters] at h₁
    rw [hr₂, appendParameters] at h₂
    cases he : appendParamEntry e with
    | none => rw [he] at h₁; simp at h₁
    | some se =>
      rw [he] at h₁ h₂
      cases ht₁ : appendParameters (l₁ ++ (k, none) :: l₂) with
      | none => rw [ht₁] at h₁; simp at h₁
      | some t₁ =>
        cases ht₂ : appendParameters (l₁ ++ (k, some (.bool true)) :: l₂) with
        | none => rw [ht₂] at h₂; simp at h₂
        | some t₂ =>
          rw [ht₁] at h₁
          rw [ht₂] at h₂
          simp only [Option.bind_eq_bind, Option.some_bind, Option.some.injEq] at h₁ h₂
          have hlen := ih l₂ t₁ t₂ ht₁ ht₂
          rw [← h₁, ← h₂]
          simp only [String.length_append]
          omega

/-- First-match lookup skips entries with other keys. -/
theorem lookup_append_of_ne {β : Type} (l₁ : List (String × β)) (l₂ : List (String × β))
    (k : String) (v : β) (hk : ∀ e ∈ l₁, e.1 ≠ k) :
    (l₁ ++ (k, v) :: l₂).lookup k = some v := by
  induction l₁ with
  | nil => simp [List.lookup]
  | cons e l₁ ih =>
    have hne : (k == e.1) = false := by
      have := hk e (List.mem_cons_self e l₁)
      simp [beq_iff_eq]
      intro hh
      exact absurd hh.symm this
    cases e with
    | mk a b =>
      simp only [List.cons_append, List.lookup]
      rw [hne]
      exact ih (fun x hx => hk x (List.mem_cons_of_mem _ hx))

/-- C4 counterexample.  The claim states that a parameter stored with
value nil and one stored with value `Boolean(true)` serialize to the
same output.  They do not: the serializer appends `=?1` for the
`Boolean(true)` value and nothing for a nil value. -/
theorem c4_counterexample :
    SerializeItem ⟨.token "x", [("a", none)]⟩ = some "x;a" ∧
    SerializeItem ⟨.token "x", [("a", some (.bool true))]⟩ = some "x;a=?1" ∧
    ("x;a" : String) ≠ "x;a=?1" := by
  refine ⟨by decide, by decide, by decide⟩

/-- C4 amended.  For every parameter container holding key `k` (with
any other entries around it, none of the earlier ones using `k`),
serializing with `k ↦ nil` and with `k ↦ Boolean(true)` both may
succeed but produce different outputs (they differ exactly by the
three extra characters `=?1`), while before serialization the two
containers are distinguishable: `Load` returns the nil value for the
first and the `Boolean(true)` item for the second. -/
theorem c4_amended (l₁ l₂ : Parameters) (k : String) (s₁ s₂ : String)
    (h₁ : appendParameters (l₁ ++ (k, none) :: l₂) = some s₁)
    (h₂ : appendParameters (l₁ ++ (k, some (.bool true)) :: l₂) = some s₂)
    (hk : ∀ e ∈ l₁, e.1 ≠ k) :
    s₁ ≠ s₂ ∧
    (l₁ ++ (k, none) :: l₂).lookup k = some none ∧
    (l₁ ++ (k, some (.bool true)) :: l₂).lookup k = some (some (.bool true)) := by
  refine ⟨?_, lookup_append_of_ne l₁ l₂ k none hk,
    lookup_append_of_ne l₁ l₂ k (some (.bool true)) hk⟩
  intro heq
  have hlen := appendParameters_len_split l₁ k l₂ s₁ s₂ h₁ h₂
  rw [heq] at hlen
  omega

/-- C4 witness. -/
theorem c4_witness :
    (";a" : String) ≠ ";a=?1" ∧
    ([("a", (none : Option BareItem))]).lookup "a" = some none ∧
    ([("a", some (BareItem.bool true))]).lookup "a" = some (some (.bool true)) :=
  c4_amended [] [] "a" ";a" ";a=?1" (by decide) (by decide) (by simp)

/-! ## Helper lemmas for C6 (decimal serialization) -/

/-- `splitOnDot` of a dot-free list is that list alone. -/
theorem splitOnDot_no_dot (l : List Char) (h : '.' ∉ l) : splitOnDot l = [l] := by
  induction l with
  | nil => rfl
  | cons c cs ih =>
    have hc : ¬ c = '.' := by
      intro hh
      exact h (by rw [hh]; exact List.mem_cons_self _ _)
    have hcs : '.' ∉ cs := fun hm => h (List.mem_cons_of_mem c hm)
    simp only [splitOnDot, if_neg hc, ih hcs]

/-- `splitOnDot` splits at the first dot after a dot-free run. -/
theorem splitOnDot_append (a b : List Char) (h : '.' ∉ a) :
    splitOnDot (a ++ '.' :: b) = a :: splitOnDot b := by
  induction a with
  | nil => simp [splitOnDot]
  | cons c cs ih =>
    have hc : ¬ c = '.' := by
      intro hh
      exact h (by rw [hh]; exact List.mem_cons_self _ _)
    have hcs : '.' ∉ cs := fun hm => h (List.mem_cons_of_mem c hm)
    have hr : (c :: cs) ++ '.' :: b = c :: (cs ++ '.' :: b) := rfl
    rw [hr]
    simp only [splitOnDot, if_neg hc, ih hcs]

/-- C6 counterexample.  The claim asserts that every serialized decimal
contains `.` followed by at least one digit.  It does not: for the
float `-99999999999999.5` (exactly representable in binary64), the
minimal rendering has a 15-character integer part `-99999999999999`,
which passes the negative-value budget check but leaves
`15 - 15 = 0` characters for the fraction, so serialization succeeds
with output `-99999999999999.` whose dot is followed by nothing. -/
theorem c6_counterexample :
    SerializeItem ⟨.float (mkRat (-199999999999999) 2), []⟩ = some "-99999999999999." ∧
    hasDotThenDigit "-99999999999999.".data = false := by
  refine ⟨by decide, by decide⟩

/-- With no fraction in the rendering, `appendBareItemFloatCore`
checks the budget on the whole (dot-free) rendering and emits `.0`. -/
theorem floatCore_none (p0 : List Char) (vpos : Bool) (h : '.' ∉ p0) :
    appendBareItemFloatCore p0 vpos =
      if 15 < p0.length ∨ (vpos = true ∧ 14 < p0.length) then none
      else some (p0 ++ '.' :: ['0']) := by
  have hsplit := splitOnDot_no_dot p0 h
  simp only [appendBareItemFloatCore, hsplit]
  rfl

/-- With a fraction in the rendering, `appendBareItemFloatCore` checks
the budget on the part before the dot and truncates the fraction to
`15 - len(p0)` characters. -/
theorem floatCore_some (p0 f : List Char) (vpos : Bool) (hp : '.' ∉ p0) (hf : '.' ∉ f) :
    appendBareItemFloatCore (p0 ++ '.' :: f) vpos =
      if 15 < p0.length ∨ (vpos = true ∧ 14 < p0.length) then none
      else some (p0 ++ '.' :: f.take (min f.length (15 - p0.length))) := by
  have hsplit : splitOnDot (p0 ++ '.' :: f) = [p0, f] := by
    rw [splitOnDot_append p0 f hp, splitOnDot_no_dot f hf]
  simp only [appendBareItemFloatCore, hsplit]
  rfl

/-- C6 amended.  Let the minimal fixed-point rendering of the value be
an optional sign, a nonempty digit run `ip`, and an optional fraction
`.f` with `f` a nonempty digit run, and let `p0` be the sign plus `ip`
(the part before the dot, as split by the serializer; `vpos` is the Go
test `v > 0`).  Then serialization fails exactly when `p0` is longer
than 15 characters, or longer than 14 for a positive value; on
success the output is `p0`, a dot, and the fraction right-truncated
to `15 - len(p0)` digits (a single `0` when there is no fraction) —
so the dot is followed by at least one digit whenever `len(p0) ≤ 14`,
but not necessarily when `len(p0) = 15`. -/
theorem c6_amended (neg vpos : Bool) (ip : List Char) (fr : Option (List Char))
    (p0 fmt : List Char)
    (hp0 : p0 = (if neg then ['-'] else []) ++ ip)
    (hfmt : fmt = p0 ++ fracSuffix fr)
    (_hip : ip ≠ []) (hipd : ∀ c ∈ ip, isDigitCh c = true)
    (hfrd : ∀ f, fr = some f → f ≠ [] ∧ ∀ c ∈ f, isDigitCh c = true) :
    (appendBareItemFloatCore fmt vpos = none ↔
      15 < p0.length ∨ (vpos = true ∧ 14 < p0.length)) ∧
    ∀ s, appendBareItemFloatCore fmt vpos = some s →
      s = p0 ++ '.' :: fracOut p0.length fr ∧
      (p0.length ≤ 14 → ∃ c t, s = p0 ++ '.' :: c :: t ∧ isDigitCh c = true) := by
  subst hfmt
  have hdp0 : '.' ∉ p0 := by
    rw [hp0]
    intro hm
    rcases List.mem_append.mp hm with hm1 | hm2
    · cases neg with
      | true => simp at hm1
      | false => simp at hm1
    · exact absurd (hipd '.' hm2) (by decide)
  cases fr with
  | none =>
    rw [show p0 ++ fracSuffix none = p0 from by simp [fracSuffix]]
    rw [floatCore_none p0 vpos hdp0]
    constructor
    · by_cases hc : 15 < p0.length ∨ (vpos = true ∧ 14 < p0.length)
      · simp [hc]
      · simp [hc]
    · intro s hs
      by_cases hc : 15 < p0.length ∨ (vpos = true ∧ 14 < p0.length)
      · rw [if_pos hc] at hs
        exact absurd hs (by simp)
      · rw [if_neg hc] at hs
        obtain rfl : p0 ++ '.' :: ['0'] = s := Option.some.inj hs
        refine ⟨by simp [fracOut], ?_⟩
        intro _
        exact ⟨'0', [], rfl, by decide⟩
  | some f =>
    obtain ⟨hfne, hfd⟩ := hfrd f rfl
    have hdf : '.' ∉ f := fun hm => absurd (hfd '.' hm) (by decide)
    rw [show p0 ++ fracSuffix (some f) = p0 ++ '.' :: f from rfl]
    rw [floatCore_some p0 f vpos hdp0 hdf]
    constructor
    · by_cases hc : 15 < p0.length ∨ (vpos = true ∧ 14 < p0.length)
      · simp [hc]
      · simp [hc]
    · intro s hs
      by_cases hc : 15 < p0.length ∨ (vpos = true ∧ 14 < p0.length)
      · rw [if_pos hc] at hs
        exact absurd hs (by simp)
      · rw [if_neg hc] at hs
        obtain rfl : p0 ++ '.' :: f.take (min f.length (15 - p0.length)) = s :=
          Option.some.inj hs
        refine ⟨by simp [fracOut], ?_⟩
        intro hle
        obtain ⟨c, t', rfl⟩ : ∃ c t', f = c :: t' := by
          cases f with
          | nil => exact absurd rfl hfne
          | cons c t' => exact ⟨c, t', rfl⟩
        have h1 : 1 ≤ min (c :: t').length (15 - p0.length) := by
          refine le_min ?_ ?_
          · simp
          · omega
        have hn : min (c :: t').length (15 - p0.length) =
            (min (c :: t').length (15 - p0.length) - 1) + 1 := by omega
        refine ⟨c, t'.take (min (c :: t').length (15 - p0.length) - 1), ?_,
          hfd c (List.mem_cons_self _ _)⟩
        rw [hn, List.take_succ_cons]
        simp

/-- C6 witness: the amended statement at the rendering `1.25` of a
positive value. -/
theorem c6_witness :
    (appendBareItemFloatCore ['1', '.', '2', '5'] true = none ↔
      15 < (['1'] : List Char).length ∨ (true = true ∧ 14 < (['1'] : List Char).length)) ∧
    (['1', '.', '2', '5'] : List Char) =
      ['1'] ++ '.' :: fracOut (['1'] : List Char).length (some ['2', '5']) ∧
    ((['1'] : List Char).length ≤ 14 →
      ∃ c t, (['1', '.', '2', '5'] : List Char) = ['1'] ++ '.' :: c :: t ∧
        isDigitCh c = true) :=
  ⟨(c6_amended false true ['1'] (some ['2', '5']) ['1'] ['1', '.', '2', '5'] rfl rfl
      (by decide) (by decide)
      (fun f hf => by injection hf with h; subst h; exact ⟨by decide, by decide⟩)).1,
    (c6_amended false true ['1'] (some ['2', '5']) ['1'] ['1', '.', '2', '5'] rfl rfl
      (by decide) (by decide)
      (fun f hf => by injection hf with h; subst h; exact ⟨by decide, by decide⟩)).2
      ['1', '.', '2', '5'] (by decide)⟩

/-- C7.  Integer digit limits.  First: whenever the number scanner
matches a dot-free text `m` that is longer than 16 characters, or
longer than 15 and not starting with `-`, `parseNumber` fails with the
digit-count error (checked on the raw text, before any numeric
conversion — in particular a long run of leading zeros fails even
though its value is small).  Second: serializing an integer fails if
and only if it lies outside `[-999999999999999, 999999999999999]`.
Third: the two boundary literals parse and re-serialize to the
identical text. -/
theorem c7_integer_limits :
    (∀ (st : PState) (m : List Char), m = numberMatch (rest st) →
      m.contains '.' = false →
      (16 < m.length ∨ (m.head? ≠ some '-' ∧ 15 < m.length)) →
      parseNumber st =
        .error ⟨"Integers must not have more than 15 digits", st.pos + m.length⟩) ∧
    (∀ v : Int, appendBareItemInt v = none ↔
      (v < -999999999999999 ∨ 999999999999999 < v)) ∧
    ParseItem "999999999999999" = .ok ⟨.int 999999999999999, []⟩ ∧
    SerializeItem ⟨.int 999999999999999, []⟩ = some "999999999999999" ∧
    ParseItem "-999999999999999" = .ok ⟨.int (-999999999999999), []⟩ ∧
    SerializeItem ⟨.int (-999999999999999), []⟩ = some "-999999999999999" := by
  refine ⟨?_, ?_, by decide, by decide, by decide, by decide⟩
  · intro st m hm hdot hlen
    have hne : ¬ m = [] := by
      intro hh
      rw [hh] at hlen
      rcases hlen with h | ⟨_, h⟩
      · simp at h
      · simp at h
    have h2 : ¬ m.contains '.' = true := by
      rw [hdot]
      exact Bool.false_ne_true
    simp only [parseNumber]
    rw [← hm, if_neg hne, if_neg h2, if_pos hlen]
  · intro v
    by_cases hc : v < -999999999999999 ∨ 999999999999999 < v
    · simp [appendBareItemInt, hc]
    · simp [appendBareItemInt, hc]

/-- C7 witness: the 16-digit literal `1000000000000000` (value within
`int64` range but one digit too long) fails to parse, and the boundary
check for its value. -/
theorem c7_witness :
    parseNumber ⟨"1000000000000000".data, 0⟩ =
      .error ⟨"Integers must not have more than 15 digits", 16⟩ ∧
    (appendBareItemInt 1000000000000000 = none ↔
      ((1000000000000000 : Int) < -999999999999999 ∨
        (999999999999999 : Int) < 1000000000000000)) :=
  ⟨c7_integer_limits.1 ⟨"1000000000000000".data, 0⟩ ("1000000000000000".data)
      (by decide) (by decide) (by decide),
    c7_integer_limits.2.1 1000000000000000⟩

end Stheader
